/-
Verification of the ArtFlow realtime-collaboration backend.

This file shallowly embeds the parts of the Python source that the
specification's claims are about:

* the Redis event batcher of `main.py` (`add_to_redis_buffer`,
  `flush_redis_buffer`, `push_to_redis_queue`);
* the `ConnectionManager` session registry of `main.py`
  (`connect`, `disconnect`, `_broadcast_to_others_immediate`);
* the live websocket endpoint's message-type dispatch of `main.py`;
* the `CanvasHandler` and `ImageHandler` update reducers of
  `backend/handlers/`;
* `add_drawing_history` of `backend/database.py`.

Python dicts are embedded as insertion-ordered association lists;
dict assignment replaces the value of an existing key in place and
appends a new binding otherwise, and `pop` removes the binding.
Fallible external calls (Redis pushes) are driven by explicit
success/failure oracles so that the error-handling paths of the
source are part of the model.
-/
import Mathlib

/-- Lookup of a key in an insertion-ordered association list
(`d[k]` / `k in d` of a Python dict). -/
def alookup {α β : Type} [DecidableEq α] : List (α × β) → α → Option β
  | [], _ => none
  | (k, v) :: rest, key => if k = key then some v else alookup rest key

/-- Assignment `d[k] = v` on a Python dict: overwrite the existing
binding in place, or append a new binding at the end. -/
def aset {α β : Type} [DecidableEq α] : List (α × β) → α → β → List (α × β)
  | [], key, val => [(key, val)]
  | (k, v) :: rest, key, val =>
      if k = key then (k, val) :: rest else (k, v) :: aset rest key val

/-- Removal `d.pop(k)` on a Python dict: drop the binding of `k`
(first occurrence; dict keys are unique). -/
def aremove {α β : Type} [DecidableEq α] : List (α × β) → α → List (α × β)
  | [], _ => []
  | (k, v) :: rest, key => if k = key then rest else (k, v) :: aremove rest key

/-! ## Event batcher of `main.py` (claims about buffering and flushing) -/

abbrev ProjectId := String

abbrev FileId := String

abbrev UserId := String

/-- An event handed to the batcher: the dicts built in
`websocket_endpoint` for `draw` and `clear` messages.  The drawing
payload is kept opaque. -/
structure Ev where
  project_id : ProjectId
  file_id : FileId
  user_id : UserId
  event_type : String
  payload : String
  timestamp : Nat
deriving DecidableEq, Repr

/-- Per-project slice of `redis_event_buffer`: file id to buffered events. -/
abbrev FileBuf := List (FileId × List Ev)

/-- The global `redis_event_buffer` dict: project id to per-file buffers. -/
abbrev Buf := List (ProjectId × FileBuf)

/-- One item pushed onto the `drawing_events_queue` Redis list: either a
single serialized event or a batch envelope
`{project_id, file_id, event_type: "batch", events, count, timestamp}`. -/
inductive QItem
  | single (e : Ev)
  | batch (project_id : ProjectId) (file_id : FileId)
      (events : List Ev) (count : Nat) (timestamp : Nat)
deriving DecidableEq, Repr

/-- Batcher state: the in-memory buffer plus the queue contents, the
latter recorded in the order items were pushed. -/
structure RState where
  buffer : Buf
  queue : List QItem
deriving DecidableEq, Repr

/-- `add_to_redis_buffer(event)`: create the nested dict entries if
missing, then append the event to its room's list. -/
def addToRedisBuffer (e : Ev) (b : Buf) : Buf :=
  let files := (alookup b e.project_id).getD []
  let evs := (alookup files e.file_id).getD []
  aset b e.project_id (aset files e.file_id (evs ++ [e]))

/-- The queue item(s) `flush_redis_buffer` produces for one room's
buffered list: nothing if empty, the lone event standalone if a
singleton, otherwise one batch envelope carrying the whole list. -/
def itemFor (pid : ProjectId) (fid : FileId) (now : Nat) : List Ev → List QItem
  | [] => []
  | [e] => [QItem.single e]
  | es => [QItem.batch pid fid es es.length now]

/-- Queue items produced for all files of one project, in dict order. -/
def fileItemsAll (pid : ProjectId) (now : Nat) : FileBuf → List QItem
  | [] => []
  | (fid, evs) :: rest => itemFor pid fid now evs ++ fileItemsAll pid now rest

/-- All queue items a successful `flush_redis_buffer` pushes, in push
order (projects then files, both in dict insertion order). -/
def flushItems (now : Nat) : Buf → List QItem
  | [] => []
  | (pid, files) :: rest => fileItemsAll pid now files ++ flushItems now rest

/-- `flush_redis_buffer()`.  When Redis is disabled or the client is
absent the buffer is dropped without pushing anything.  Otherwise the
items of `flushItems` are pushed one by one; `failAt = some k` means
the `(k+1)`-th push raises (so only the first `k` items land and the
buffer is not cleared, mirroring the `except` branch that skips
`redis_event_buffer.clear()`); otherwise all items are pushed and the
buffer is cleared.  The post-flush `ltrim` that bounds the queue length
(dropping oldest entries after a successful flush) and the
`last_redis_flush_time` bookkeeping are outside the claims and not
modelled; the flush timer is abstracted by `timerDue` at the caller. -/
def flushRedisBuffer (enabled clientPresent : Bool) (failAt : Option Nat)
    (now : Nat) (s : RState) : RState :=
  if ¬(enabled = true ∧ clientPresent = true) then { buffer := [], queue := s.queue }
  else
    let items := flushItems now s.buffer
    match failAt with
    | some k =>
        if k < items.length then { buffer := s.buffer, queue := s.queue ++ items.take k }
        else { buffer := [], queue := s.queue ++ items }
    | none => { buffer := [], queue := s.queue ++ items }

/-- `push_to_redis_queue(event)`.  A `clear` event first forces a full
flush, then is pushed directly (standalone, never buffered); the push
of the clear itself may raise (`clearPushOk = false`), in which case
the exception is caught and nothing more happens.  Any other event is
appended to the buffer, followed by the flush-interval check
(`check_and_flush_redis_buffer`), modelled by `timerDue`. -/
def pushToRedisQueue (enabled clientPresent : Bool) (failAt : Option Nat)
    (clearPushOk timerDue : Bool) (now : Nat) (e : Ev) (s : RState) : RState :=
  if enabled = false then s
  else if e.event_type = "clear" then
    let s1 := flushRedisBuffer enabled clientPresent failAt now s
    if clearPushOk then { s1 with queue := s1.queue ++ [QItem.single e] } else s1
  else
    let s2 : RState := { s with buffer := addToRedisBuffer e s.buffer }
    if timerDue then flushRedisBuffer enabled clientPresent failAt now s2 else s2

/-- The events carried by one queue item. -/
def qItemEvents : QItem → List Ev
  | .single e => [e]
  | .batch _ _ es _ _ => es

/-- The events carried by a list of queue items, in order. -/
def itemsEvents : List QItem → List Ev
  | [] => []
  | it :: rest => qItemEvents it ++ itemsEvents rest

/-- All events held in a per-project buffer slice, in order. -/
def fileBufEvents : FileBuf → List Ev
  | [] => []
  | (_, evs) :: rest => evs ++ fileBufEvents rest

/-- All events held in the buffer, in order. -/
def bufEvents : Buf → List Ev
  | [] => []
  | (_, files) :: rest => fileBufEvents files ++ bufEvents rest

def evD1 : Ev := ⟨"P1", "F1", "U1", "draw", "s1", 1⟩

def evD2 : Ev := ⟨"P1", "F1", "U2", "draw", "s2", 2⟩

def evD3 : Ev := ⟨"P1", "F1", "U1", "draw", "s3", 3⟩

def evClear : Ev := ⟨"P1", "F1", "U1", "clear", "", 4⟩

def sEx : RState := ⟨[("P1", [("F1", [evD1, evD2])])], []⟩

/-- A room's live sessions, `active_connections[project][file]`:
user id to transport handle (handles numbered by `Nat`). -/
abbrev RoomConns := List (UserId × Nat)

/-- Per-project slice of the registry: file id to room sessions. -/
abbrev FileConns := List (FileId × RoomConns)

/-- The `active_connections` nested dict of `ConnectionManager`. -/
abbrev Conns := List (ProjectId × FileConns)

/-- The sessions of room `(p, f)` (empty when the room is absent). -/
def roomOf (c : Conns) (p : ProjectId) (f : FileId) : RoomConns :=
  (alookup ((alookup c p).getD []) f).getD []

/-- The transport registered for `(p, f, u)`, if any. -/
def lookupConn (c : Conns) (p : ProjectId) (f : FileId) (u : UserId) : Option Nat :=
  alookup (roomOf c p f) u

/-- `ConnectionManager.connect`: lazily create the nested dicts, then
store the transport under `(project, file, user)`, replacing any prior
binding for the same key. -/
def connect (ws : Nat) (p : ProjectId) (f : FileId) (u : UserId) (c : Conns) : Conns :=
  let files := (alookup c p).getD []
  let room := (alookup files f).getD []
  aset c p (aset files f (aset room u ws))

/-- `ConnectionManager.disconnect`: pop the user's entry (an absent key
is tolerated via `pop(user_id, None)`); drop the room's dict when it
becomes empty, then the project's dict when that becomes empty. -/
def disconnect (p : ProjectId) (f : FileId) (u : UserId) (c : Conns) : Conns :=
  match alookup c p with
  | none => c
  | some files =>
    let files' :=
      match alookup files f with
      | none => files
      | some room =>
        let room' := aremove room u
        if room' = [] then aremove files f else aset files f room'
    if files' = [] then aremove c p else aset c p files'

/-- `ConnectionManager._broadcast_to_others_immediate` (the `main.py`
variant): issue a send to every member of the room other than the
sender, join on all of them collecting per-send failures individually
(`fails` tells which transport handles are dead), then disconnect every
failed recipient.  Returns the new registry, the sessions a send was
attempted to, and the user ids whose sends failed.  The function
returns normally in all cases: a failed send is recorded and handled,
never re-raised to the caller. -/
def broadcastImmediate (fails : Nat → Bool) (p : ProjectId) (f : FileId)
    (sender : UserId) (c : Conns) : Conns × List (UserId × Nat) × List UserId :=
  match alookup c p with
  | none => (c, [], [])
  | some files =>
    match alookup files f with
    | none => (c, [], [])
    | some room =>
      let targets := room.filter (fun t => t.1 ≠ sender)
      let failed := (targets.filter (fun t => fails t.2)).map Prod.fst
      (failed.foldl (fun acc fu => disconnect p f fu acc) c, targets, failed)

/-- Wellformedness of the registry: dict keys are unique at every level
(true of Python dicts by construction). -/
def WFConns (c : Conns) : Prop :=
  (c.map Prod.fst).Nodup ∧
    ∀ pf ∈ c, (pf.2.map Prod.fst).Nodup ∧ ∀ fr ∈ pf.2, (fr.2.map Prod.fst).Nodup

instance decWFConns (c : Conns) : Decidable (WFConns c) := by
  unfold WFConns
  exact inferInstance

/-- No retained empty structures: every project entry holds at least one
room and every room entry holds at least one session. -/
def noEmpty (c : Conns) : Prop :=
  ∀ pf ∈ c, pf.2 ≠ [] ∧ ∀ fr ∈ pf.2, fr.2 ≠ []

instance decNoEmpty (c : Conns) : Decidable (noEmpty c) := by
  unfold noEmpty
  exact inferInstance

def cEx : Conns := [("P1", [("F1", [("u1", 1), ("u2", 2), ("u3", 3)])])]

def cEx6 : Conns := [("P1", [("F1", [("u1", 7)])])]

/-- The branch `websocket_endpoint`'s message loop takes for an inbound
message's `type`. -/
inductive WsBranch
  | init
  | draw
  | clear
  | unknown
deriving DecidableEq, Repr

/-- The `if message_type == .. / elif .. / else` chain of
`websocket_endpoint`: only `init`, `draw` and `clear` are handled, any
other type reaches the `Unknown message type` warning branch. -/
def wsDispatch (t : String) : WsBranch :=
  if t = "init" then WsBranch.init
  else if t = "draw" then WsBranch.draw
  else if t = "clear" then WsBranch.clear
  else WsBranch.unknown

/-- An inbound canvas update: the dict passed to
`CanvasHandler.handle_update`, with `update_type`, `user_id` and a
`data` payload of which cursor moves use the `x`/`y` fields and draws
the stroke payload. -/
structure CanvasMsg where
  update_type : String
  user_id : UserId
  x : Int
  y : Int
  stroke : String
deriving DecidableEq, Repr

/-- The `canvas_states` nested dict, holding each room's ordered stroke
list (the never-read `current_users` set is omitted). -/
abbrev CanvasStates := List (ProjectId × List (FileId × List String))

/-- The dict `CanvasHandler.handle_update` returns: the canonical
broadcast payload per update type; `cursor` carries the normalized
`{x, y, user_id}` data, and unknown update types pass through. -/
inductive CanvasOut
  | draw (stroke : String)
  | clear
  | cursor (x y : Int) (user_id : UserId)
  | passthrough (m : CanvasMsg)
deriving DecidableEq, Repr

/-- `CanvasHandler.initialize_canvas`: create missing dict levels, leave
present ones untouched. -/
def initCanvas (p : ProjectId) (f : FileId) (st : CanvasStates) : CanvasStates :=
  let files := (alookup st p).getD []
  match alookup files f with
  | some _ => aset st p files
  | none => aset st p (aset files f [])

/-- `CanvasHandler.handle_update`: dispatch on `update_type`.  A draw
initializes the room if missing and appends the stroke; a clear empties
the stroke list when the room exists; a cursor move touches no state and
returns the normalized payload; anything else passes through. -/
def canvasHandleUpdate (p : ProjectId) (f : FileId) (m : CanvasMsg)
    (st : CanvasStates) : CanvasStates × CanvasOut :=
  if m.update_type = "draw" then
    let st1 :=
      if (alookup ((alookup st p).getD []) f).isNone then initCanvas p f st else st
    let files := (alookup st1 p).getD []
    let strokes := (alookup files f).getD []
    (aset st1 p (aset files f (strokes ++ [m.stroke])), CanvasOut.draw m.stroke)
  else if m.update_type = "clear" then
    let st1 :=
      match alookup st p with
      | none => st
      | some files =>
        match alookup files f with
        | none => st
        | some _ => aset st p (aset files f [])
    (st1, CanvasOut.clear)
  else if m.update_type = "cursor_move" then
    (st, CanvasOut.cursor m.x m.y m.user_id)
  else (st, CanvasOut.passthrough m)

def cmEx : CanvasMsg := ⟨"cursor_move", "U1", 150, 150, ""⟩

/-- A `drawing_history` row for one file. -/
structure HEntry where
  sequence_number : Nat
  user_id : UserId
  payload : String
  timestamp : Nat
deriving DecidableEq, Repr

/-- The largest `sequence_number` in a file's history, 0 when empty: the
result of the `order by sequence_number desc limit 1` query of
`add_drawing_history`. -/
def maxSeq (h : List HEntry) : Nat :=
  h.foldl (fun m e => max m e.sequence_number) 0

/-- `add_drawing_history`: read the file's current maximum sequence
number, assign `max + 1` (1 when the file has no history yet), and
insert the new row. -/
def add_drawing_history (u : UserId) (payload : String) (ts : Nat)
    (h : List HEntry) : List HEntry :=
  let sn :=
    match h with
    | [] => 1
    | _ => maxSeq h + 1
  h ++ [⟨sn, u, payload, ts⟩]

def h10 : List HEntry := [⟨10, "U0", "d0", 100⟩]

/-- One image marker in the room's ordered list: the client payload plus
the locally assigned integer id (`data["id"]`). -/
structure Ann where
  id : Nat
  payload : String
deriving DecidableEq, Repr

/-- Image room state: the ordered marker list and the per-user cursors
(`image_states[project][file]`; the never-read `current_users` set is
omitted). -/
structure ImgRoom where
  anns : List Ann
  cursors : List (UserId × (Int × Int))
deriving DecidableEq, Repr

/-- The `image_states` nested dict of `ImageHandler`. -/
abbrev ImgStates := List (ProjectId × List (FileId × ImgRoom))

/-- The fresh room state `initialize_image` installs. -/
def emptyImgRoom : ImgRoom := ⟨[], []⟩

/-- `ImageHandler.initialize_image`: create missing dict levels, leave
present ones untouched. -/
def initImage (p : ProjectId) (f : FileId) (st : ImgStates) : ImgStates :=
  let files := (alookup st p).getD []
  match alookup files f with
  | some _ => aset st p files
  | none => aset st p (aset files f emptyImgRoom)

/-- The room's marker list (empty when the room is absent). -/
def annsOf (st : ImgStates) (p : ProjectId) (f : FileId) : List Ann :=
  ((alookup ((alookup st p).getD []) f).getD emptyImgRoom).anns

/-- `ImageHandler._handle_annotation_add`: initialize the room if it is
missing, set the incoming payload's id to `len(annotations)`, append it,
and echo the payload carrying its id. -/
def annAdd (p : ProjectId) (f : FileId) (pay : String) (st : ImgStates) :
    ImgStates × Ann :=
  let st1 :=
    if (alookup ((alookup st p).getD []) f).isNone then initImage p f st else st
  let files := (alookup st1 p).getD []
  let room := (alookup files f).getD emptyImgRoom
  let a : Ann := ⟨room.anns.length, pay⟩
  (aset st1 p (aset files f { room with anns := room.anns ++ [a] }), a)

/-- `ImageHandler._handle_annotation_delete`: when the room exists, keep
only the markers whose id differs from the requested one (a list
comprehension, so every marker bearing the id goes away). -/
def annDelete (p : ProjectId) (f : FileId) (annId : Nat) (st : ImgStates) :
    ImgStates :=
  match alookup st p with
  | none => st
  | some files =>
    match alookup files f with
    | none => st
    | some room =>
        aset st p (aset files f
          { room with anns := room.anns.filter (fun a => a.id ≠ annId) })

/-- Replace the first marker whose id matches (the for-loop with `break`
in `_handle_annotation_update`). -/
def replaceById (a : Ann) : List Ann → List Ann
  | [] => []
  | b :: rest => if b.id = a.id then a :: rest else b :: replaceById a rest

/-- `ImageHandler._handle_annotation_update`: when the room exists,
overwrite the first marker whose id matches the incoming payload's. -/
def annUpdate (p : ProjectId) (f : FileId) (a : Ann) (st : ImgStates) :
    ImgStates :=
  match alookup st p with
  | none => st
  | some files =>
    match alookup files f with
    | none => st
    | some room =>
        aset st p (aset files f { room with anns := replaceById a room.anns })

def s3Ex : ImgStates :=
  annDelete "P1" "F1" 0 (annAdd "P1" "F1" "b" (annAdd "P1" "F1" "a" []).1).1

/-! ## Lemmas and claim theorems -/

theorem itemFor_events (pid : ProjectId) (fid : FileId) (now : Nat)
    (evs : List Ev) : itemsEvents (itemFor pid fid now evs) = evs := by
  match evs with
  | [] => rfl
  | [e] => rfl
  | a :: b :: t => simp [itemFor, itemsEvents, qItemEvents]

theorem itemsEvents_append (l₁ l₂ : List QItem) :
    itemsEvents (l₁ ++ l₂) = itemsEvents l₁ ++ itemsEvents l₂ := by
  induction l₁ with
  | nil => rfl
  | cons it rest ih => simp [itemsEvents, ih]

theorem fileItemsAll_events (pid : ProjectId) (now : Nat) (fb : FileBuf) :
    itemsEvents (fileItemsAll pid now fb) = fileBufEvents fb := by
  induction fb with
  | nil => rfl
  | cons hd rest ih =>
      simp [fileItemsAll, fileBufEvents, itemsEvents_append, itemFor_events, ih]

theorem flushItems_events (now : Nat) (b : Buf) :
    itemsEvents (flushItems now b) = bufEvents b := by
  induction b with
  | nil => rfl
  | cons hd rest ih =>
      simp [flushItems, bufEvents, itemsEvents_append, fileItemsAll_events, ih]

theorem addToRedisBuffer_same_room (p : ProjectId) (f : FileId) (es : List Ev)
    (e : Ev) (hp : e.project_id = p) (hf : e.file_id = f) :
    addToRedisBuffer e [(p, [(f, es)])] = [(p, [(f, es ++ [e])])] := by
  simp [addToRedisBuffer, alookup, aset, hp, hf]

theorem foldl_add_same_room (p : ProjectId) (f : FileId) (evs : List Ev) :
    ∀ es : List Ev, (∀ e ∈ evs, e.project_id = p ∧ e.file_id = f) →
      evs.foldl (fun b e => addToRedisBuffer e b) [(p, [(f, es)])] =
        [(p, [(f, es ++ evs)])] := by
  induction evs with
  | nil => intro es _; simp
  | cons a t ih =>
      intro es hall
      obtain ⟨hp, hf⟩ := hall a (by simp)
      rw [List.foldl_cons, addToRedisBuffer_same_room p f es a hp hf,
        ih (es ++ [a]) (fun e he => hall e (by simp [he]))]
      simp

theorem buffer_of_adds (p : ProjectId) (f : FileId) (a : Ev) (t : List Ev)
    (hall : ∀ e ∈ a :: t, e.project_id = p ∧ e.file_id = f) :
    (a :: t).foldl (fun b e => addToRedisBuffer e b) [] = [(p, [(f, a :: t)])] := by
  obtain ⟨hp, hf⟩ := hall a (by simp)
  have h1 : addToRedisBuffer a [] = [(p, [(f, [a])])] := by
    simp [addToRedisBuffer, alookup, aset, hp, hf]
  rw [List.foldl_cons, h1, foldl_add_same_room p f t [a]
    (fun e he => hall e (by simp [he]))]
  simp

/-- C1: on a `clear` event, `push_to_redis_queue` first flushes the whole
buffer (hence in particular the room's buffered events) to the queue and
only then pushes the clear itself as a standalone item; the clear is never
buffered (the final buffer is empty) and never wrapped in a batch envelope,
and every previously buffered event sits in the queue segment that precedes
the clear. -/
theorem clear_flushes_buffer_first (e : Ev) (s : RState) (now : Nat)
    (hc : e.event_type = "clear") :
    pushToRedisQueue true true none true true now e s =
      ⟨[], s.queue ++ flushItems now s.buffer ++ [QItem.single e]⟩ ∧
    ∀ ev ∈ bufEvents s.buffer, ev ∈ itemsEvents (flushItems now s.buffer) := by
  constructor
  · simp [pushToRedisQueue, hc, flushRedisBuffer]
  · intro ev hev
    rw [flushItems_events]
    exact hev

theorem clear_flushes_buffer_first_witness :
    evClear.event_type = "clear" ∧
    (pushToRedisQueue true true none true true 4 evClear sEx =
        ⟨[], sEx.queue ++ flushItems 4 sEx.buffer ++ [QItem.single evClear]⟩ ∧
      ∀ ev ∈ bufEvents sEx.buffer, ev ∈ itemsEvents (flushItems 4 sEx.buffer)) :=
  ⟨rfl, clear_flushes_buffer_first evClear sEx 4 rfl⟩

/-- C3: flushing a room whose buffer was filled by `add_to_redis_buffer`
with events `evs` (in arrival order) pushes exactly one queue item for that
room: the lone event standalone when `evs` is a singleton, and a single
batch envelope carrying all of `evs` in arrival order with `count`
equal to `evs.length` when there is more than one; in both cases the
buffer is empty after the successful flush. -/
theorem flush_pushes_one_item_per_room (p : ProjectId) (f : FileId)
    (evs : List Ev) (q : List QItem) (now : Nat)
    (hall : ∀ e ∈ evs, e.project_id = p ∧ e.file_id = f) :
    (∀ e, evs = [e] →
      flushRedisBuffer true true none now
          ⟨evs.foldl (fun b e => addToRedisBuffer e b) [], q⟩ =
        ⟨[], q ++ [QItem.single e]⟩) ∧
    (2 ≤ evs.length →
      flushRedisBuffer true true none now
          ⟨evs.foldl (fun b e => addToRedisBuffer e b) [], q⟩ =
        ⟨[], q ++ [QItem.batch p f evs evs.length now]⟩) := by
  constructor
  · rintro e rfl
    rw [buffer_of_adds p f e [] hall]
    simp [flushRedisBuffer, flushItems, fileItemsAll, itemFor]
  · intro hlen
    match evs, hall, hlen with
    | a :: b :: t, hall, _ =>
      rw [buffer_of_adds p f a (b :: t) hall]
      simp [flushRedisBuffer, flushItems, fileItemsAll, itemFor]

theorem flush_pushes_one_item_per_room_witness :
    (∀ e ∈ [evD1, evD2, evD3], e.project_id = "P1" ∧ e.file_id = "F1") ∧
    ((∀ e, [evD1, evD2, evD3] = [e] →
      flushRedisBuffer true true none 9
          ⟨[evD1, evD2, evD3].foldl (fun b e => addToRedisBuffer e b) [], []⟩ =
        ⟨[], [] ++ [QItem.single e]⟩) ∧
    (2 ≤ [evD1, evD2, evD3].length →
      flushRedisBuffer true true none 9
          ⟨[evD1, evD2, evD3].foldl (fun b e => addToRedisBuffer e b) [], []⟩ =
        ⟨[], [] ++ [QItem.batch "P1" "F1" [evD1, evD2, evD3]
          [evD1, evD2, evD3].length 9]⟩)) :=
  ⟨by decide, flush_pushes_one_item_per_room "P1" "F1" [evD1, evD2, evD3] [] 9 (by decide)⟩

/-- C4: if the hand-off to the queue raises partway through a flush (the
`failAt` oracle fires within the items being pushed), the buffer is left
unchanged, so a later flush would push the very same items; whereas when
Redis is disabled or the client is absent, the flush empties the buffer
without pushing anything. -/
theorem flush_failure_retries_disabled_drops (s : RState) (now now2 k : Nat)
    (enabled clientPresent : Bool) (failAt : Option Nat)
    (hk : k < (flushItems now s.buffer).length)
    (hd : enabled = false ∨ clientPresent = false) :
    (flushRedisBuffer true true (some k) now s).buffer = s.buffer ∧
    flushItems now2 (flushRedisBuffer true true (some k) now s).buffer =
      flushItems now2 s.buffer ∧
    flushRedisBuffer enabled clientPresent failAt now s = ⟨[], s.queue⟩ := by
  refine ⟨?_, ?_, ?_⟩
  · simp [flushRedisBuffer, hk]
  · simp [flushRedisBuffer, hk]
  · rcases hd with h | h <;> subst h <;> simp [flushRedisBuffer]

/-! ### Generic association-list lemmas -/

theorem alookup_aset_self {α β : Type} [DecidableEq α] (l : List (α × β)) (k : α) (v : β) :
    alookup (aset l k v) k = some v := by
  induction l with
  | nil => simp [aset, alookup]
  | cons hd rest ih =>
      obtain ⟨k', v'⟩ := hd
      by_cases h : k' = k <;> simp [aset, alookup, h, ih]

theorem alookup_aset_ne {α β : Type} [DecidableEq α] (l : List (α × β)) (k k' : α) (v : β)
    (h : k' ≠ k) : alookup (aset l k v) k' = alookup l k' := by
  induction l with
  | nil => simp [aset, alookup, Ne.symm h]
  | cons hd rest ih =>
      obtain ⟨k₀, v₀⟩ := hd
      by_cases h0 : k₀ = k
      · subst h0
        simp [aset, alookup, Ne.symm h]
      · by_cases h1 : k₀ = k' <;> simp [aset, alookup, h0, h1, h, ih]

theorem aset_eq_self {α β : Type} [DecidableEq α] (l : List (α × β)) (k : α) (v : β)
    (h : alookup l k = some v) : aset l k v = l := by
  induction l with
  | nil => simp [alookup] at h
  | cons hd rest ih =>
      obtain ⟨k₀, v₀⟩ := hd
      by_cases h0 : k₀ = k
      · subst h0
        simp [alookup] at h
        simp [aset, h]
      · simp [alookup, h0] at h
        simp [aset, h0, ih h]

theorem aremove_eq_self {α β : Type} [DecidableEq α] (l : List (α × β)) (k : α)
    (h : alookup l k = none) : aremove l k = l := by
  induction l with
  | nil => simp [aremove]
  | cons hd rest ih =>
      obtain ⟨k₀, v₀⟩ := hd
      by_cases h0 : k₀ = k
      · simp [alookup, h0] at h
      · simp [alookup, h0] at h
        simp [aremove, h0, ih h]

theorem alookup_eq_none_iff {α β : Type} [DecidableEq α] (l : List (α × β)) (k : α) :
    alookup l k = none ↔ ∀ t ∈ l, t.1 ≠ k := by
  induction l with
  | nil => simp [alookup]
  | cons hd rest ih =>
      obtain ⟨k₀, v₀⟩ := hd
      by_cases h0 : k₀ = k <;> simp [alookup, h0, ih]

theorem mem_of_alookup {α β : Type} [DecidableEq α] (l : List (α × β)) (k : α) (v : β)
    (h : alookup l k = some v) : (k, v) ∈ l := by
  induction l with
  | nil => simp [alookup] at h
  | cons hd rest ih =>
      obtain ⟨k₀, v₀⟩ := hd
      by_cases h0 : k₀ = k
      · subst h0
        simp [alookup] at h
        simp [h]
      · simp [alookup, h0] at h
        simp [ih h]

theorem mem_aset {α β : Type} [DecidableEq α] (l : List (α × β)) (k : α) (v : β)
    (t : α × β) (h : t ∈ aset l k v) : t ∈ l ∨ t = (k, v) := by
  induction l with
  | nil => simp [aset] at h; simp [h]
  | cons hd rest ih =>
      obtain ⟨k₀, v₀⟩ := hd
      by_cases h0 : k₀ = k
      · subst h0
        simp [aset] at h
        rcases h with h | h
        · right; simp [h]
        · left; simp [h]
      · simp [aset, h0] at h
        rcases h with h | h
        · left; simp [h]
        · rcases ih h with h' | h'
          · left; simp [h']
          · right; exact h'

theorem aremove_sublist {α β : Type} [DecidableEq α] (l : List (α × β)) (k : α) :
    (aremove l k).Sublist l := by
  induction l with
  | nil => simp [aremove]
  | cons hd rest ih =>
      obtain ⟨k₀, v₀⟩ := hd
      by_cases h0 : k₀ = k
      · rw [show aremove ((k₀, v₀) :: rest) k = rest by simp [aremove, h0]]
        exact List.sublist_cons_self _ _
      · rw [show aremove ((k₀, v₀) :: rest) k = (k₀, v₀) :: aremove rest k by
          simp [aremove, h0]]
        exact ih.cons₂ _

theorem mem_aremove {α β : Type} [DecidableEq α] (l : List (α × β)) (k : α)
    (t : α × β) (h : t ∈ aremove l k) : t ∈ l :=
  (aremove_sublist l k).mem h

theorem mem_keys_aset {α β : Type} [DecidableEq α] (l : List (α × β)) (k : α) (v : β)
    (x : α) (h : x ∈ (aset l k v).map Prod.fst) : x ∈ l.map Prod.fst ∨ x = k := by
  simp only [List.mem_map] at h
  obtain ⟨t, ht, hx⟩ := h
  rcases mem_aset l k v t ht with h' | h'
  · left; exact List.mem_map.mpr ⟨t, h', hx⟩
  · right; rw [← hx, h']

theorem nodup_keys_aset {α β : Type} [DecidableEq α] (l : List (α × β)) (k : α) (v : β)
    (h : (l.map Prod.fst).Nodup) : ((aset l k v).map Prod.fst).Nodup := by
  induction l with
  | nil => simp [aset]
  | cons hd rest ih =>
      obtain ⟨k₀, v₀⟩ := hd
      rw [List.map_cons, List.nodup_cons] at h
      by_cases h0 : k₀ = k
      · rw [show aset ((k₀, v₀) :: rest) k v = (k₀, v) :: rest by simp [aset, h0],
          List.map_cons, List.nodup_cons]
        exact h
      · rw [show aset ((k₀, v₀) :: rest) k v = (k₀, v₀) :: aset rest k v by
          simp [aset, h0], List.map_cons, List.nodup_cons]
        refine ⟨fun hx => ?_, ih h.2⟩
        rcases mem_keys_aset rest k v k₀ hx with h' | h'
        · exact h.1 h'
        · exact h0 h'

theorem nodup_keys_aremove {α β : Type} [DecidableEq α] (l : List (α × β)) (k : α)
    (h : (l.map Prod.fst).Nodup) : ((aremove l k).map Prod.fst).Nodup :=
  ((aremove_sublist l k).map Prod.fst).nodup h

theorem alookup_aremove_self {α β : Type} [DecidableEq α] (l : List (α × β)) (k : α)
    (h : (l.map Prod.fst).Nodup) : alookup (aremove l k) k = none := by
  induction l with
  | nil => simp [aremove, alookup]
  | cons hd rest ih =>
      obtain ⟨k₀, v₀⟩ := hd
      rw [List.map_cons, List.nodup_cons] at h
      by_cases h0 : k₀ = k
      · rw [show aremove ((k₀, v₀) :: rest) k = rest by simp [aremove, h0],
          alookup_eq_none_iff]
        intro t ht hk
        exact h.1 (List.mem_map.mpr ⟨t, ht, hk.trans h0.symm⟩)
      · simp [aremove, alookup, h0, ih h.2]

theorem aset_ne_nil {α β : Type} [DecidableEq α] (l : List (α × β)) (k : α) (v : β) :
    aset l k v ≠ [] := by
  cases l with
  | nil => simp [aset]
  | cons hd rest =>
      obtain ⟨k₀, v₀⟩ := hd
      by_cases h0 : k₀ = k <;> simp [aset, h0]

theorem aremove_cons_ne {α β : Type} [DecidableEq α] (k₀ k : α) (v₀ : β)
    (rest : List (α × β)) (h : ¬k₀ = k) :
    aremove ((k₀, v₀) :: rest) k = (k₀, v₀) :: aremove rest k := by
  simp [aremove, h]

theorem nodup_roomOf (c : Conns) (p f : String) (hwf : WFConns c) :
    ((roomOf c p f).map Prod.fst).Nodup := by
  obtain ⟨hc, hparts⟩ := hwf
  cases hp : alookup c p with
  | none => simp [roomOf, hp, alookup]
  | some files =>
    cases hf : alookup files f with
    | none => simp [roomOf, hp, hf]
    | some room =>
      have h1 := (hparts _ (mem_of_alookup c p files hp)).2 _
        (mem_of_alookup files f room hf)
      simpa [roomOf, hp, hf] using h1

theorem roomOf_some_some (c : Conns) (p f : String) (files : FileConns)
    (room : RoomConns) (hp : alookup c p = some files)
    (hf : alookup files f = some room) : roomOf c p f = room := by
  simp [roomOf, hp, hf]

theorem roomOf_disconnect (p f : String) (u : UserId) (c : Conns)
    (hwf : WFConns c) :
    roomOf (disconnect p f u c) p f = aremove (roomOf c p f) u := by
  obtain ⟨hc, hparts⟩ := hwf
  cases hp : alookup c p with
  | none => simp [disconnect, roomOf, hp, alookup, aremove]
  | some files =>
    have hfiles := hparts _ (mem_of_alookup c p files hp)
    cases hf : alookup files f with
    | none =>
        simp only [disconnect, hp, hf]
        by_cases hemp : files = []
        · rw [if_pos hemp]
          simp [roomOf, alookup_aremove_self c p hc, hp, hf, aremove, alookup]
        · rw [if_neg hemp]
          simp [roomOf, alookup_aset_self, hp, hf, aremove]
    | some room =>
        have hrof : roomOf c p f = room := roomOf_some_some c p f files room hp hf
        simp only [disconnect, hp, hf]
        by_cases hr : aremove room u = []
        · rw [if_pos hr, hrof, hr]
          by_cases hfe : aremove files f = []
          · rw [if_pos hfe]
            simp [roomOf, alookup_aremove_self c p hc, alookup]
          · rw [if_neg hfe]
            simp [roomOf, alookup_aset_self,
              alookup_aremove_self files f hfiles.1]
        · rw [if_neg hr, if_neg (aset_ne_nil files f (aremove room u)), hrof]
          simp [roomOf, alookup_aset_self]

theorem WFConns_disconnect (p f : String) (u : UserId) (c : Conns)
    (hwf : WFConns c) : WFConns (disconnect p f u c) := by
  obtain ⟨hc, hparts⟩ := hwf
  cases hp : alookup c p with
  | none => simpa [disconnect, hp] using ⟨hc, hparts⟩
  | some files =>
    have hfiles := hparts _ (mem_of_alookup c p files hp)
    have main : ∀ fs : FileConns, (fs.map Prod.fst).Nodup →
        (∀ fr ∈ fs, (fr.2.map Prod.fst).Nodup) →
        WFConns (if fs = [] then aremove c p else aset c p fs) := by
      intro fs hn hr
      by_cases he : fs = []
      · rw [if_pos he]
        exact ⟨nodup_keys_aremove c p hc, fun pf hm => hparts pf (mem_aremove c p pf hm)⟩
      · rw [if_neg he]
        refine ⟨nodup_keys_aset c p fs hc, fun pf hm => ?_⟩
        rcases mem_aset c p fs pf hm with h' | h'
        · exact hparts pf h'
        · rw [h']
          exact ⟨hn, hr⟩
    cases hf : alookup files f with
    | none =>
        simp only [disconnect, hp, hf]
        exact main files hfiles.1 hfiles.2
    | some room =>
        simp only [disconnect, hp, hf]
        by_cases hr : aremove room u = []
        · rw [if_pos hr]
          exact main (aremove files f) (nodup_keys_aremove files f hfiles.1)
            (fun fr hm => hfiles.2 fr (mem_aremove files f fr hm))
        · rw [if_neg hr]
          refine main (aset files f (aremove room u))
            (nodup_keys_aset files f _ hfiles.1) (fun fr hm => ?_)
          rcases mem_aset files f (aremove room u) fr hm with h' | h'
          · exact hfiles.2 fr h'
          · rw [h']
            exact nodup_keys_aremove room u
              (hfiles.2 _ (mem_of_alookup files f room hf))

theorem noEmpty_disconnect (p f : String) (u : UserId) (c : Conns)
    (hne : noEmpty c) : noEmpty (disconnect p f u c) := by
  cases hp : alookup c p with
  | none => simpa [disconnect, hp] using hne
  | some files =>
    have hfiles := hne _ (mem_of_alookup c p files hp)
    have main : ∀ fs : FileConns, (∀ fr ∈ fs, fr.2 ≠ []) →
        noEmpty (if fs = [] then aremove c p else aset c p fs) := by
      intro fs hfr
      by_cases he : fs = []
      · rw [if_pos he]
        exact fun pf hm => hne pf (mem_aremove c p pf hm)
      · rw [if_neg he]
        intro pf hm
        rcases mem_aset c p fs pf hm with h' | h'
        · exact hne pf h'
        · rw [h']
          exact ⟨he, hfr⟩
    cases hf : alookup files f with
    | none =>
        simp only [disconnect, hp, hf]
        exact main files hfiles.2
    | some room =>
        simp only [disconnect, hp, hf]
        by_cases hr : aremove room u = []
        · rw [if_pos hr]
          exact main (aremove files f)
            (fun fr hm => hfiles.2 fr (mem_aremove files f fr hm))
        · rw [if_neg hr]
          refine main (aset files f (aremove room u)) (fun fr hm => ?_)
          rcases mem_aset files f (aremove room u) fr hm with h' | h'
          · exact hfiles.2 fr h'
          · rw [h']
            exact hr

theorem roomOf_foldl_disconnect (p f : String) (us : List UserId) :
    ∀ c : Conns, WFConns c →
      roomOf (us.foldl (fun acc fu => disconnect p f fu acc) c) p f =
        us.foldl (fun r fu => aremove r fu) (roomOf c p f) ∧
      WFConns (us.foldl (fun acc fu => disconnect p f fu acc) c) := by
  induction us with
  | nil => exact fun c hwf => ⟨rfl, hwf⟩
  | cons a t ih =>
      intro c hwf
      rw [List.foldl_cons, List.foldl_cons]
      obtain ⟨h1, h2⟩ := ih (disconnect p f a c) (WFConns_disconnect p f a c hwf)
      rw [h1, roomOf_disconnect p f a c hwf]
      exact ⟨rfl, h2⟩

theorem foldl_aremove_cons {β : Type} (t : UserId × β) (ks : List UserId) :
    ∀ rest : List (UserId × β), (∀ k ∈ ks, k ≠ t.1) →
      ks.foldl (fun r k => aremove r k) (t :: rest) =
        t :: ks.foldl (fun r k => aremove r k) rest := by
  induction ks with
  | nil => exact fun rest _ => rfl
  | cons a ks' ih =>
      intro rest h
      rw [List.foldl_cons, List.foldl_cons]
      obtain ⟨t1, t2⟩ := t
      rw [aremove_cons_ne t1 a t2 rest (fun he => h a (by simp) (by simp [he]))]
      exact ih (aremove rest a) (fun k hk => h k (by simp [hk]))

theorem foldl_aremove_filter {β : Type} (P : UserId × β → Bool) :
    ∀ l : List (UserId × β), (l.map Prod.fst).Nodup →
      ((l.filter P).map Prod.fst).foldl (fun r k => aremove r k) l =
        l.filter (fun t => !(P t)) := by
  intro l
  induction l with
  | nil => intro _; rfl
  | cons hd rest ih =>
      intro h
      rw [List.map_cons, List.nodup_cons] at h
      by_cases hP : P hd = true
      · rw [List.filter_cons_of_pos hP, List.map_cons, List.foldl_cons]
        have h1 : aremove (hd :: rest) hd.1 = rest := by
          obtain ⟨k₀, v₀⟩ := hd
          simp [aremove]
        rw [h1, ih h.2, List.filter_cons_of_neg (by simp [hP])]
      · rw [List.filter_cons_of_neg (by simpa using hP)]
        have hks : ∀ k ∈ (rest.filter P).map Prod.fst, k ≠ hd.1 := by
          intro k hk hkeq
          simp only [List.mem_map] at hk
          obtain ⟨t, ht, rfl⟩ := hk
          exact h.1 (List.mem_map.mpr ⟨t, (List.mem_filter.mp ht).1, hkeq⟩)
        rw [foldl_aremove_cons hd ((rest.filter P).map Prod.fst) rest hks, ih h.2,
          List.filter_cons_of_pos (by simpa using hP)]

theorem broadcast_targets (fails : Nat → Bool) (p f : String) (sender : UserId)
    (c : Conns) :
    (broadcastImmediate fails p f sender c).2.1 =
      (roomOf c p f).filter (fun t => t.1 ≠ sender) := by
  cases hp : alookup c p with
  | none => simp [broadcastImmediate, roomOf, hp, alookup]
  | some files =>
    cases hf : alookup files f with
    | none => simp [broadcastImmediate, roomOf, hp, hf]
    | some room => simp [broadcastImmediate, roomOf, hp, hf]

theorem broadcast_failed (fails : Nat → Bool) (p f : String) (sender : UserId)
    (c : Conns) :
    (broadcastImmediate fails p f sender c).2.2 =
      (((roomOf c p f).filter (fun t => t.1 ≠ sender)).filter
        (fun t => fails t.2)).map Prod.fst := by
  cases hp : alookup c p with
  | none => simp [broadcastImmediate, roomOf, hp, alookup]
  | some files =>
    cases hf : alookup files f with
    | none => simp [broadcastImmediate, roomOf, hp, hf]
    | some room => simp [broadcastImmediate, roomOf, hp, hf]

theorem broadcast_room_after (fails : Nat → Bool) (p f : String) (sender : UserId)
    (c : Conns) (hwf : WFConns c) :
    roomOf (broadcastImmediate fails p f sender c).1 p f =
      (roomOf c p f).filter (fun t => t.1 = sender ∨ fails t.2 = false) := by
  have hcongr : ∀ l : RoomConns,
      l.filter (fun t => !(fails t.2 && decide (t.1 ≠ sender))) =
        l.filter (fun t => t.1 = sender ∨ fails t.2 = false) := by
    intro l
    apply List.filter_congr
    intro t _
    by_cases hs : t.1 = sender <;> cases hfa : fails t.2 <;> simp [hs, hfa]
  cases hp : alookup c p with
  | none =>
      simp [broadcastImmediate, roomOf, hp, alookup]
  | some files =>
    cases hf : alookup files f with
    | none =>
        simp [broadcastImmediate, roomOf, hp, hf]
    | some room =>
        have hrof : roomOf c p f = room := roomOf_some_some c p f files room hp hf
        have hnod : (room.map Prod.fst).Nodup := by
          rw [← hrof]
          exact nodup_roomOf c p f hwf
        simp only [broadcastImmediate, hp, hf]
        rw [List.filter_filter]
        obtain ⟨h1, _⟩ := roomOf_foldl_disconnect p f
          ((room.filter fun t => fails t.2 && decide (t.1 ≠ sender)).map Prod.fst) c hwf
        rw [h1, hrof, foldl_aremove_filter _ room hnod, hcongr]

/-- C2: `_broadcast_to_others_immediate` attempts delivery to every
registered session in the room except the sender's; the failed
recipients are exactly those whose transport is dead, each of them is
evicted from the registry, and all other sessions survive the
broadcast untouched (the room afterwards is the original room minus
exactly the failed recipients).  The function is total, so a send
failure is never re-raised to the caller. -/
theorem broadcast_attempts_all_evicts_failed (fails : Nat → Bool) (p f : String)
    (sender : UserId) (c : Conns) (hwf : WFConns c) :
    (broadcastImmediate fails p f sender c).2.1 =
      (roomOf c p f).filter (fun t => t.1 ≠ sender) ∧
    (broadcastImmediate fails p f sender c).2.2 =
      (((roomOf c p f).filter (fun t => t.1 ≠ sender)).filter
        (fun t => fails t.2)).map Prod.fst ∧
    roomOf (broadcastImmediate fails p f sender c).1 p f =
      (roomOf c p f).filter (fun t => t.1 = sender ∨ fails t.2 = false) :=
  ⟨broadcast_targets fails p f sender c, broadcast_failed fails p f sender c,
    broadcast_room_after fails p f sender c hwf⟩

theorem broadcast_attempts_all_evicts_failed_witness :
    WFConns cEx ∧
    ((broadcastImmediate (fun n => n == 2) "P1" "F1" "u1" cEx).2.1 =
      (roomOf cEx "P1" "F1").filter (fun t => t.1 ≠ "u1") ∧
    (broadcastImmediate (fun n => n == 2) "P1" "F1" "u1" cEx).2.2 =
      (((roomOf cEx "P1" "F1").filter (fun t => t.1 ≠ "u1")).filter
        (fun t => (fun n => n == 2) t.2)).map Prod.fst ∧
    roomOf (broadcastImmediate (fun n => n == 2) "P1" "F1" "u1" cEx).1 "P1" "F1" =
      (roomOf cEx "P1" "F1").filter
        (fun t => t.1 = "u1" ∨ (fun n => n == 2) t.2 = false)) :=
  ⟨by decide, broadcast_attempts_all_evicts_failed (fun n => n == 2) "P1" "F1" "u1" cEx
    (by decide)⟩

theorem roomOf_connect (ws : Nat) (p f : String) (u : UserId) (c : Conns) :
    roomOf (connect ws p f u c) p f = aset (roomOf c p f) u ws := by
  simp [connect, roomOf, alookup_aset_self]

theorem filter_key_aset {β : Type} (l : List (UserId × β)) (u : UserId) (w : β)
    (h : (l.map Prod.fst).Nodup) :
    (aset l u w).filter (fun t => t.1 = u) = [(u, w)] := by
  induction l with
  | nil => simp [aset]
  | cons hd rest ih =>
      obtain ⟨k₀, v₀⟩ := hd
      rw [List.map_cons, List.nodup_cons] at h
      by_cases h0 : k₀ = u
      · rw [show aset ((k₀, v₀) :: rest) u w = (k₀, w) :: rest by simp [aset, h0],
          List.filter_cons_of_pos (by simp [h0])]
        have hrest : rest.filter (fun t => t.1 = u) = [] := by
          rw [List.filter_eq_nil_iff]
          intro t ht
          simp only [decide_eq_true_eq]
          intro he
          exact h.1 (List.mem_map.mpr ⟨t, ht, he.trans h0.symm⟩)
        rw [hrest, h0]
      · rw [show aset ((k₀, v₀) :: rest) u w = (k₀, v₀) :: aset rest u w by
          simp [aset, h0], List.filter_cons_of_neg (by simp [h0]), ih h.2]

/-- C6: a `connect` for `(p, f, u)` while an older transport is
registered under the same key replaces it: afterwards the lookup yields
the new transport, the room holds exactly one entry for `u`, and a
subsequent broadcast from any other sender addresses exactly that one
new transport for `u`. -/
theorem connect_replaces_transport (ws : Nat) (p f : String) (u : UserId)
    (c : Conns) (fails : Nat → Bool) (sender : UserId)
    (h : ((roomOf c p f).map Prod.fst).Nodup) (hs : sender ≠ u) :
    lookupConn (connect ws p f u c) p f u = some ws ∧
    (roomOf (connect ws p f u c) p f).filter (fun t => t.1 = u) = [(u, ws)] ∧
    ((broadcastImmediate fails p f sender (connect ws p f u c)).2.1).filter
      (fun t => t.1 = u) = [(u, ws)] := by
  have hroom : roomOf (connect ws p f u c) p f = aset (roomOf c p f) u ws :=
    roomOf_connect ws p f u c
  have hfk : (aset (roomOf c p f) u ws).filter (fun t => t.1 = u) = [(u, ws)] :=
    filter_key_aset (roomOf c p f) u ws h
  refine ⟨?_, by rw [hroom]; exact hfk, ?_⟩
  · unfold lookupConn
    rw [hroom]
    exact alookup_aset_self (roomOf c p f) u ws
  · rw [broadcast_targets, hroom, List.filter_filter]
    rw [show ((aset (roomOf c p f) u ws).filter
        (fun t => decide (t.1 = u) && decide (t.1 ≠ sender))) =
        ((aset (roomOf c p f) u ws).filter (fun t => t.1 = u)) from
      List.filter_congr (fun t _ => by
        by_cases ht : t.1 = u
        · simp [ht, Ne.symm hs]
        · simp [ht])]
    exact hfk

theorem connect_replaces_transport_witness :
    ((roomOf cEx6 "P1" "F1").map Prod.fst).Nodup ∧ ("u2" : UserId) ≠ "u1" ∧
    (lookupConn (connect 9 "P1" "F1" "u1" cEx6) "P1" "F1" "u1" = some 9 ∧
    (roomOf (connect 9 "P1" "F1" "u1" cEx6) "P1" "F1").filter
      (fun t => t.1 = "u1") = [("u1", 9)] ∧
    ((broadcastImmediate (fun _ => false) "P1" "F1" "u2"
        (connect 9 "P1" "F1" "u1" cEx6)).2.1).filter
      (fun t => t.1 = "u1") = [("u1", 9)]) :=
  ⟨by decide, by decide,
    connect_replaces_transport 9 "P1" "F1" "u1" cEx6 (fun _ => false) "u2"
      (by decide) (by decide)⟩

/-- C7: `disconnect` removes the session of `(p, f, u)`, so a subsequent
broadcast to the room attempts no delivery to `u`; emptied room and
project dicts are removed (a registry with no retained empty structures
stays that way, and stays well-formed); and disconnecting an absent
session leaves the registry exactly as it was — the operation is total,
so it never raises. -/
theorem disconnect_removes_session (p f : String) (u : UserId) (c : Conns)
    (fails : Nat → Bool) (sender : UserId)
    (hwf : WFConns c) (hne : noEmpty c) :
    lookupConn (disconnect p f u c) p f u = none ∧
    (∀ t ∈ (broadcastImmediate fails p f sender (disconnect p f u c)).2.1,
      t.1 ≠ u) ∧
    WFConns (disconnect p f u c) ∧ noEmpty (disconnect p f u c) ∧
    (lookupConn c p f u = none → disconnect p f u c = c) := by
  have hnod : ((roomOf c p f).map Prod.fst).Nodup := nodup_roomOf c p f hwf
  have hlook : lookupConn (disconnect p f u c) p f u = none := by
    unfold lookupConn
    rw [roomOf_disconnect p f u c hwf]
    exact alookup_aremove_self (roomOf c p f) u hnod
  refine ⟨hlook, ?_, WFConns_disconnect p f u c hwf, noEmpty_disconnect p f u c hne, ?_⟩
  · intro t ht
    rw [broadcast_targets] at ht
    have hmem : t ∈ roomOf (disconnect p f u c) p f := (List.mem_filter.mp ht).1
    exact (alookup_eq_none_iff (roomOf (disconnect p f u c) p f) u).mp hlook t hmem
  · intro hnone
    unfold lookupConn at hnone
    cases hp : alookup c p with
    | none => simp [disconnect, hp]
    | some files =>
      have hfmem := mem_of_alookup c p files hp
      have hfne : files ≠ [] := (hne _ hfmem).1
      cases hf : alookup files f with
      | none =>
          simp only [disconnect, hp, hf]
          rw [if_neg hfne, aset_eq_self c p files hp]
      | some room =>
          have hrmem := mem_of_alookup files f room hf
          have hrne : room ≠ [] := (hne _ hfmem).2 _ hrmem
          have hru : alookup room u = none := by
            rwa [roomOf_some_some c p f files room hp hf] at hnone
          simp only [disconnect, hp, hf]
          rw [aremove_eq_self room u hru, if_neg hrne, aset_eq_self files f room hf,
            if_neg hfne, aset_eq_self c p files hp]

theorem disconnect_removes_session_witness :
    WFConns cEx ∧ noEmpty cEx ∧
    (lookupConn (disconnect "P1" "F1" "u2" cEx) "P1" "F1" "u2" = none ∧
    (∀ t ∈ (broadcastImmediate (fun _ => false) "P1" "F1" "u1"
        (disconnect "P1" "F1" "u2" cEx)).2.1, t.1 ≠ "u2") ∧
    WFConns (disconnect "P1" "F1" "u2" cEx) ∧ noEmpty (disconnect "P1" "F1" "u2" cEx) ∧
    (lookupConn cEx "P1" "F1" "u2" = none → disconnect "P1" "F1" "u2" cEx = cEx)) :=
  ⟨by decide, by decide,
    disconnect_removes_session "P1" "F1" "u2" cEx (fun _ => false) "u1"
      (by decide) (by decide)⟩

theorem flush_failure_retries_disabled_drops_witness :
    0 < (flushItems 9 sEx.buffer).length ∧
    ((false : Bool) = false ∨ (true : Bool) = false) ∧
    ((flushRedisBuffer true true (some 0) 9 sEx).buffer = sEx.buffer ∧
      flushItems 8 (flushRedisBuffer true true (some 0) 9 sEx).buffer =
        flushItems 8 sEx.buffer ∧
      flushRedisBuffer false true none 9 sEx = ⟨[], sEx.queue⟩) :=
  ⟨by decide, Or.inl rfl,
    flush_failure_retries_disabled_drops sEx 9 8 0 false true none
      (by decide) (Or.inl rfl)⟩

/-- C5 counterexample: a `cursor_move` message on the live canvas
channel reaches the endpoint's unknown-message-type branch, refuting the
claim that it is recognized and processed there. -/
theorem cursor_move_hits_unknown_branch :
    wsDispatch "cursor_move" = WsBranch.unknown := by decide

/-- C5 (amended): the live endpoint recognizes only `init`, `draw` and
`clear`, so a `cursor_move` message falls into its unknown-message-type
branch; the normalized `{x, y, user_id}` handling of `cursor_move`
exists only in `CanvasHandler.handle_update` — which no endpoint
invokes — where it leaves the canvas state unchanged and yields the
normalized payload. -/
theorem cursor_move_unknown_on_endpoint (p f : String) (m : CanvasMsg)
    (st : CanvasStates) (hm : m.update_type = "cursor_move") :
    wsDispatch "cursor_move" = WsBranch.unknown ∧
    wsDispatch "init" = WsBranch.init ∧ wsDispatch "draw" = WsBranch.draw ∧
    wsDispatch "clear" = WsBranch.clear ∧
    canvasHandleUpdate p f m st = (st, CanvasOut.cursor m.x m.y m.user_id) := by
  refine ⟨by decide, by decide, by decide, by decide, ?_⟩
  simp [canvasHandleUpdate, hm]

theorem cursor_move_unknown_on_endpoint_witness :
    cmEx.update_type = "cursor_move" ∧
    (wsDispatch "cursor_move" = WsBranch.unknown ∧
    wsDispatch "init" = WsBranch.init ∧ wsDispatch "draw" = WsBranch.draw ∧
    wsDispatch "clear" = WsBranch.clear ∧
    canvasHandleUpdate "P1" "F1" cmEx [] =
      ([], CanvasOut.cursor cmEx.x cmEx.y cmEx.user_id)) :=
  ⟨rfl, cursor_move_unknown_on_endpoint "P1" "F1" cmEx [] rfl⟩

/-- C8: a run of history writes against a file whose current maximum
sequence number is `M` appends entries numbered `M + 1, M + 2, ...` in
receipt order — consecutive, hence strictly increasing, with 1 used on
an empty history (whose maximum is 0). -/
theorem history_seq_numbers (writes : List (UserId × String × Nat))
    (h : List HEntry) (M : Nat) (hM : maxSeq h = M) :
    ∃ es : List HEntry,
      writes.foldl (fun acc w => add_drawing_history w.1 w.2.1 w.2.2 acc) h =
        h ++ es ∧
      es.map (fun e => e.sequence_number) = List.range' (M + 1) writes.length := by
  induction writes generalizing h M with
  | nil => exact ⟨[], by simp, by simp⟩
  | cons w ws ih =>
      have hone : add_drawing_history w.1 w.2.1 w.2.2 h =
          h ++ [⟨M + 1, w.1, w.2.1, w.2.2⟩] := by
        cases h with
        | nil =>
            have hM0 : M = 0 := by simpa [maxSeq] using hM.symm
            subst hM0
            simp [add_drawing_history]
        | cons a t => simp [add_drawing_history, hM]
      have hmax : maxSeq (h ++ [(⟨M + 1, w.1, w.2.1, w.2.2⟩ : HEntry)]) = M + 1 := by
        unfold maxSeq at hM ⊢
        rw [List.foldl_append, hM]
        simp
      obtain ⟨es, h1, h2⟩ := ih (h ++ [⟨M + 1, w.1, w.2.1, w.2.2⟩]) (M + 1) hmax
      refine ⟨⟨M + 1, w.1, w.2.1, w.2.2⟩ :: es, ?_, ?_⟩
      · rw [List.foldl_cons, hone, h1, List.append_assoc]
        rfl
      · rw [List.map_cons, h2]
        simp [List.range'_succ]

theorem history_seq_numbers_witness :
    maxSeq h10 = 10 ∧
    ∃ es : List HEntry,
      [("U1", "d1", (1 : Nat)), ("U1", "d2", 2), ("U2", "d3", 3),
        ("U1", "d4", 4), ("U2", "d5", 5)].foldl
          (fun acc w => add_drawing_history w.1 w.2.1 w.2.2 acc) h10 = h10 ++ es ∧
      es.map (fun e => e.sequence_number) = List.range' 11 5 :=
  ⟨by decide,
    history_seq_numbers
      [("U1", "d1", 1), ("U1", "d2", 2), ("U2", "d3", 3), ("U1", "d4", 4),
        ("U2", "d5", 5)] h10 10 (by decide)⟩

theorem annsOf_annAdd (p f : String) (pay : String) (st : ImgStates) :
    (annAdd p f pay st).2 = ⟨(annsOf st p f).length, pay⟩ ∧
    annsOf (annAdd p f pay st).1 p f =
      annsOf st p f ++ [⟨(annsOf st p f).length, pay⟩] := by
  cases hp : alookup st p with
  | none =>
      constructor <;>
        simp [annAdd, annsOf, initImage, hp, alookup, alookup_aset_self,
          emptyImgRoom]
  | some files =>
    cases hf : alookup files f with
    | none =>
        constructor <;>
          simp [annAdd, annsOf, initImage, hp, hf, alookup_aset_self, emptyImgRoom]
    | some room =>
        constructor <;>
          simp [annAdd, annsOf, hp, hf, alookup_aset_self]

theorem annsOf_annUpdate (p f : String) (a : Ann) (st : ImgStates) :
    annsOf (annUpdate p f a st) p f = replaceById a (annsOf st p f) := by
  cases hp : alookup st p with
  | none => simp [annUpdate, annsOf, hp, alookup, emptyImgRoom, replaceById]
  | some files =>
    cases hf : alookup files f with
    | none => simp [annUpdate, annsOf, hp, hf, emptyImgRoom, replaceById]
    | some room => simp [annUpdate, annsOf, hp, hf, alookup_aset_self]

theorem annsOf_annDelete (p f : String) (i : Nat) (st : ImgStates) :
    annsOf (annDelete p f i st) p f =
      (annsOf st p f).filter (fun a => a.id ≠ i) := by
  cases hp : alookup st p with
  | none => simp [annDelete, annsOf, hp, alookup, emptyImgRoom]
  | some files =>
    cases hf : alookup files f with
    | none => simp [annDelete, annsOf, hp, hf, emptyImgRoom]
    | some room => simp [annDelete, annsOf, hp, hf, alookup_aset_self]

/-- C9: starting from a room whose marker list is empty, an
`annotation_add`, then an `annotation_update` with the id the add
returned, then an `annotation_delete` with that same id leave the
room's marker list empty. -/
theorem ann_round_trip (p f pay1 pay2 : String) (st : ImgStates)
    (h : annsOf st p f = []) :
    annsOf
      (annDelete p f (annAdd p f pay1 st).2.id
        (annUpdate p f ⟨(annAdd p f pay1 st).2.id, pay2⟩ (annAdd p f pay1 st).1))
      p f = [] := by
  obtain ⟨h2, h1⟩ := annsOf_annAdd p f pay1 st
  have hid : (annAdd p f pay1 st).2.id = 0 := by rw [h2]; simp [h]
  rw [annsOf_annDelete, annsOf_annUpdate, h1, h, hid]
  simp [replaceById]

theorem ann_round_trip_witness :
    annsOf [] "P1" "F1" = [] ∧
    annsOf
      (annDelete "P1" "F1" (annAdd "P1" "F1" "a" []).2.id
        (annUpdate "P1" "F1" ⟨(annAdd "P1" "F1" "a" []).2.id, "b"⟩
          (annAdd "P1" "F1" "a" []).1))
      "P1" "F1" = [] :=
  ⟨by decide, ann_round_trip "P1" "F1" "a" "b" [] (by decide)⟩

/-- C10: `annotation_add` assigns the id `len(annotations)`; after a
deletion the next add can therefore assign an id an existing marker
already bears (concrete run: add, add, delete id 0, then the next add
assigns id 1, borne by the surviving marker); and `annotation_delete`
removes every marker bearing the requested id, not exactly one. -/
theorem ann_id_assignment_and_delete_all :
    (∀ (p f pay : String) (st : ImgStates),
      (annAdd p f pay st).2.id = (annsOf st p f).length) ∧
    ((annAdd "P1" "F1" "c" s3Ex).2.id = 1 ∧
      (⟨1, "b"⟩ : Ann) ∈ annsOf s3Ex "P1" "F1") ∧
    (∀ (p f : String) (i : Nat) (st : ImgStates),
      annsOf (annDelete p f i st) p f =
        (annsOf st p f).filter (fun a => a.id ≠ i)) :=
  ⟨fun p f pay st => by rw [(annsOf_annAdd p f pay st).1],
    ⟨by decide, by decide⟩,
    fun p f i st => annsOf_annDelete p f i st⟩
